import Mathlib

/-!
Verification of the pixel-format layout model and the chroma resampling
engine of `ycbcr.py` (yuv-tools).

Shallow embedding conventions:
* A byte buffer (a Python `array('B')` or list) is modelled by its indexing
  function `Nat → Int` together with a length that is carried separately in
  the statements.  All sample arithmetic is done in `Int` because the FIR
  filters mix signed intermediate values.
* Python 2 `/` on non-negative integers is floor division, i.e. `Nat` `/`.
* Python `x >> n` on a (possibly negative) int is an arithmetic shift,
  i.e. floor division by `2^n`, which is `Int.fdiv x (2^n)`.
* A Python `slice(a, b)` (resp. `slice(a, b, s)`) is the record
  `⟨a, b, 1⟩` (resp. `⟨a, b, s⟩`) below.
* The in-place loops of the two resamplers are embedded as left folds over
  the same index ranges, updating the destination buffer function.
-/

/-- Python slice object `slice(start, stop, step)`; `slice(a, b)` has step 1. -/
structure PySlice where
  start : Nat
  stop : Nat
  step : Nat
deriving DecidableEq

/-- The triple of slices returned by the `get_layout` methods, in the
source's order `(Y, Cb, Cr)`. -/
abbrev Layout := PySlice × PySlice × PySlice

namespace Y

/-- Embeds `Y.get_420_partitioning` (ycbcr.py lines 24-28); `wh` is
`self.width * self.height`.  Python 2 `/` on ints is floor division. -/
def get_420_partitioning (wh : Nat) : Nat × Nat × Nat × Nat × Nat × Nat :=
  (0, wh, wh, wh / 4 * 5, wh / 4 * 5, wh / 2 * 3)

/-- Embeds `Y.get_422_partitioning` (ycbcr.py lines 30-34). -/
def get_422_partitioning (wh : Nat) : Nat × Nat × Nat × Nat × Nat × Nat :=
  (0, wh, wh, wh / 2 * 5, wh / 2 * 5, wh * 3)

end Y

namespace YV12

/-- Embeds `YV12.get_frame_size` (line 41-42). -/
def get_frame_size (width height : Nat) : Nat := width * height * 3 / 2

/-- Embeds `YV12.get_layout` (lines 44-51). -/
def get_layout (width height : Nat) : Layout :=
  match Y.get_420_partitioning (width * height) with
  | (p0, p1, p2, p3, p4, p5) => (⟨p0, p1, 1⟩, ⟨p2, p3, 1⟩, ⟨p4, p5, 1⟩)

end YV12

namespace IYUV

/-- Embeds `IYUV.get_frame_size` (line 58-59). -/
def get_frame_size (width height : Nat) : Nat := width * height * 3 / 2

/-- Embeds `IYUV.get_layout` (lines 61-65): Cb and Cr storage swapped
relative to YV12. -/
def get_layout (width height : Nat) : Layout :=
  match Y.get_420_partitioning (width * height) with
  | (p0, p1, p2, p3, p4, p5) => (⟨p0, p1, 1⟩, ⟨p4, p5, 1⟩, ⟨p2, p3, 1⟩)

end IYUV

namespace UYVY

/-- Embeds `UYVY.get_frame_size` (line 72-73). -/
def get_frame_size (width height : Nat) : Nat := width * height * 2

/-- Embeds `UYVY.get_layout` (lines 75-79). -/
def get_layout (width height : Nat) : Layout :=
  let fs := get_frame_size width height
  (⟨1, fs, 2⟩, ⟨0, fs, 4⟩, ⟨2, fs, 4⟩)

end UYVY

namespace YVYU

/-- Embeds `YVYU.get_frame_size` (line 86-87). -/
def get_frame_size (width height : Nat) : Nat := width * height * 2

/-- Embeds `YVYU.get_layout` (lines 89-93). -/
def get_layout (width height : Nat) : Layout :=
  let fs := get_frame_size width height
  (⟨0, fs, 2⟩, ⟨3, fs, 4⟩, ⟨1, fs, 4⟩)

end YVYU

namespace YUY2

/-- Embeds `YUY2.get_frame_size` (line 100-101). -/
def get_frame_size (width height : Nat) : Nat := width * height * 2

/-- Embeds `YUY2.get_layout` (lines 103-107). -/
def get_layout (width height : Nat) : Layout :=
  let fs := get_frame_size width height
  (⟨0, fs, 2⟩, ⟨1, fs, 4⟩, ⟨3, fs, 4⟩)

end YUY2

namespace Y422

/-- Embeds `Y422.get_frame_size` (line 114-115). -/
def get_frame_size (width height : Nat) : Nat := width * height * 2

/-- Embeds `Y422.get_layout` (lines 117-121). -/
def get_layout (width height : Nat) : Layout :=
  match Y.get_422_partitioning (width * height) with
  | (p0, p1, p2, p3, p4, p5) => (⟨p0, p1, 1⟩, ⟨p2, p3, 1⟩, ⟨p4, p5, 1⟩)

end Y422

/-- The format tags of the `RW` table (ycbcr.py lines 181-190) that have a
layout; `Fmt.Y422` is the `'422'` entry. -/
inductive Fmt where
  | YV12
  | IYUV
  | UYVY
  | YVYU
  | YUY2
  | Y422
deriving DecidableEq

/-- Dispatch of `get_frame_size` through the `RW` table. -/
def get_frame_size : Fmt → Nat → Nat → Nat
  | .YV12, w, h => YV12.get_frame_size w h
  | .IYUV, w, h => IYUV.get_frame_size w h
  | .UYVY, w, h => UYVY.get_frame_size w h
  | .YVYU, w, h => YVYU.get_frame_size w h
  | .YUY2, w, h => YUY2.get_frame_size w h
  | .Y422, w, h => Y422.get_frame_size w h

/-- Dispatch of `get_layout` through the `RW` table. -/
def get_layout : Fmt → Nat → Nat → Layout
  | .YV12, w, h => YV12.get_layout w h
  | .IYUV, w, h => IYUV.get_layout w h
  | .UYVY, w, h => UYVY.get_layout w h
  | .YVYU, w, h => YVYU.get_layout w h
  | .YUY2, w, h => YUY2.get_layout w h
  | .Y422, w, h => Y422.get_layout w h

/-- Number of elements a Python slice with positive step selects from a
buffer whose length equals `s.stop` (the case of every layout slice):
`max(0, ceil((stop-start)/step))`; `Nat` subtraction already truncates. -/
def sliceLen (s : PySlice) : Nat := (s.stop - s.start + s.step - 1) / s.step

/-- Python extended-slice read `buf[s]`: element `k` of the result is
`buf[s.start + k*s.step]`. -/
def sliceGet (buf : Nat → Int) (s : PySlice) : Nat → Int :=
  fun k => buf (s.start + k * s.step)

/-- Python slice assignment `data[s] = xs` where `xs` has `n` elements, the
exact number the slice selects (the only way the program invokes it):
position `s.start + k*s.step` receives `xs[k]` and all other positions are
unchanged. -/
def sliceSet (data : Nat → Int) (s : PySlice) (n : Nat) (xs : Nat → Int) : Nat → Int :=
  fun p =>
    if s.start ≤ p ∧ (p - s.start) % s.step = 0 ∧ (p - s.start) / s.step < n then
      xs ((p - s.start) / s.step)
    else data p

/-- Embeds the layout application of `YCbCr.__read_frame` (lines 514-516):
`y, cb, cr = raw[l0], raw[l1], raw[l2]`. -/
def read_frame (L : Layout) (raw : Nat → Int) : (Nat → Int) × (Nat → Int) × (Nat → Int) :=
  (sliceGet raw L.1, sliceGet raw L.2.1, sliceGet raw L.2.2)

/-- Embeds the layout-scatter part of `YCbCr.__write_frame` (lines 524-528):
`data = [0]*frame_size_out; data[l0] = y; data[l1] = cb; data[l2] = cr`.
`ny, ncb, ncr` are the lengths of the planes being written. -/
def write_scatter (L : Layout) (ny ncb ncr : Nat) (y cb cr : Nat → Int) : Nat → Int :=
  sliceSet (sliceSet (sliceSet (fun _ => 0) L.1 ny y) L.2.1 ncb cb) L.2.2 ncr cr

/-- Encode one frame with format `f`: scatter planes of the sizes selected
by `f`'s own layout (the "correct sizes for `f`"). -/
def encode_frame (f : Fmt) (width height : Nat) (y cb cr : Nat → Int) : Nat → Int :=
  write_scatter (get_layout f width height)
    (sliceLen (get_layout f width height).1)
    (sliceLen (get_layout f width height).2.1)
    (sliceLen (get_layout f width height).2.2) y cb cr

/-- Decode one raw frame buffer with format `f`'s layout. -/
def decode_frame (f : Fmt) (width height : Nat) (raw : Nat → Int) :
    (Nat → Int) × (Nat → Int) × (Nat → Int) :=
  read_frame (get_layout f width height) raw

/-- Pointwise update of a buffer function: `dst[p] = v`. -/
def updf (f : Nat → Int) (p : Nat) (v : Int) : Nat → Int :=
  fun q => if q = p then v else f q

/-- The list of index pairs visited by the nested loops
`for i in is: for j in js`, in visit order. -/
def prodList : List Nat → List Nat → List (Nat × Nat)
  | [], _ => []
  | i :: is, js => js.map (fun j => (i, j)) ++ prodList is js

/-- Python `xrange(0, stop, step)` for positive `step`. -/
def rangeStep (stop step : Nat) : List Nat :=
  (List.range ((stop + step - 1) / step)).map (fun u => u * step)

/-- Python `x >> n` on ints: arithmetic shift, i.e. floor division by `2^n`. -/
def pyShr (x : Int) (n : Nat) : Int := Int.fdiv x (2 ^ n)

/-- Tap row `jm1 = 0 if (j<1) else j-1` (lines 568, 612). -/
def jm1 (j : Nat) : Nat := if j < 1 then 0 else j - 1

/-- Tap row `jm2 = 0 if (j<2) else j-2` (lines 567, 611). -/
def jm2 (j : Nat) : Nat := if j < 2 then 0 else j - 2

/-- Tap row `jm3 = 0 if (j<3) else j-3` (lines 566, 610). -/
def jm3 (j : Nat) : Nat := if j < 3 then 0 else j - 3

/-- Tap row `jm4 = 0 if (j<4) else j-4` (line 609). -/
def jm4 (j : Nat) : Nat := if j < 4 then 0 else j - 4

/-- Tap row `jm5 = 0 if (j<5) else j-5` (line 608). -/
def jm5 (j : Nat) : Nat := if j < 5 then 0 else j - 5

/-- Tap row `jp1 = j+1 if (j<h-1) else h-1` (lines 569, 613). -/
def jp1 (j h : Nat) : Nat := if j < h - 1 then j + 1 else h - 1

/-- Tap row `jp2 = j+2 if (j<h-2) else h-1` (lines 570, 614). -/
def jp2 (j h : Nat) : Nat := if j < h - 2 then j + 2 else h - 1

/-- Tap row `jp3 = j+3 if (j<h-3) else h-1` (lines 571, 615). -/
def jp3 (j h : Nat) : Nat := if j < h - 3 then j + 3 else h - 1

/-- Tap row `jp4 = j+4 if (j<h-4) else h-1` (line 616). -/
def jp4 (j h : Nat) : Nat := if j < h - 4 then j + 4 else h - 1

/-- Tap row `jp5 = j+5 if (j<h-5) else h-1` (line 617). -/
def jp5 (j h : Nat) : Nat := if j < h - 5 then j + 5 else h - 1

/-- Tap row `jp6 = j+5 if (j<h-5) else h-1` (line 618): the source changed
the reference algorithm's `j+6` into `j+5` ("something strange here /
changed j+6 into j+5"), so `jp6` coincides with `jp5`. -/
def jp6 (j h : Nat) : Nat := if j < h - 5 then j + 5 else h - 1

/-- Claim-side form of the downsampler's pre-clamp FIR value, written
exactly as the specification words it: tap rows `max(j-k, 0)` (`Nat`
subtraction) for the backward taps, `min(j+k, h-1)` for the forward taps,
with the sixth forward tap `min(j+5, h-1)` (not `j+6`), and
`(... + 256) >> 9`.  To be compared with `pel422` below, which is
translated from the source. -/
def pel422_claim (src : Nat → Int) (w h i j : Nat) : Int :=
  pyShr (228 * (src (i + w * j) + src (i + w * min (j + 1) (h - 1)))
        + 70 * (src (i + w * (j - 1)) + src (i + w * min (j + 2) (h - 1)))
        - 37 * (src (i + w * (j - 2)) + src (i + w * min (j + 3) (h - 1)))
        - 21 * (src (i + w * (j - 3)) + src (i + w * min (j + 4) (h - 1)))
        + 11 * (src (i + w * (j - 4)) + src (i + w * min (j + 5) (h - 1)))
         + 5 * (src (i + w * (j - 5)) + src (i + w * min (j + 5) (h - 1))) + 256) 9

/-- Concrete chroma plane for a width-2, height-16 4:2:2 frame (chroma
width 1): rows 3 and 4 hold 255, every other row 0.  At `j = 0` it maximizes
the downsampler's negative-coefficient taps while zeroing the positive
ones. -/
def srcNeg : Nat → Int := fun n => if n = 3 ∨ n = 4 then 255 else 0

/-- Concrete file contents: a valid byte stream (all samples in `[0, 255]`)
whose first UYVY frame at width 2, height 16 decodes to the `srcNeg` pattern
on its Cb plane (Cb samples sit at offsets `4*k`, so rows 3 and 4 are the
bytes at offsets 12 and 16). -/
def fileNeg : Nat → Int := fun n => if n = 12 ∨ n = 16 then 255 else 0

/-- The FIR value of `__conv420to422`'s even output line (lines 573-578),
before any clamping. -/
def pel420even (src : Nat → Int) (w h i j : Nat) : Int :=
  pyShr (3 * src (i + w * jm3 j)
       - 16 * src (i + w * jm2 j)
       + 67 * src (i + w * jm1 j)
      + 227 * src (i + w * j)
       - 32 * src (i + w * jp1 j h)
        + 7 * src (i + w * jp2 j h) + 128) 8

/-- The FIR value of `__conv420to422`'s odd output line (lines 583-588),
before any clamping. -/
def pel420odd (src : Nat → Int) (w h i j : Nat) : Int :=
  pyShr (3 * src (i + w * jp3 j h)
       - 16 * src (i + w * jp2 j h)
       + 67 * src (i + w * jp1 j h)
      + 227 * src (i + w * j)
       - 32 * src (i + w * jm1 j)
        + 7 * src (i + w * jm2 j) + 128) 8

/-- The FIR value of `__conv422to420` (lines 622-627), before any clamping. -/
def pel422 (src : Nat → Int) (w h i j : Nat) : Int :=
  pyShr (228 * (src (i + w * j) + src (i + w * jp1 j h))
        + 70 * (src (i + w * jm1 j) + src (i + w * jp2 j h))
        - 37 * (src (i + w * jm2 j) + src (i + w * jp3 j h))
        - 21 * (src (i + w * jm3 j) + src (i + w * jp4 j h))
        + 11 * (src (i + w * jm4 j) + src (i + w * jp5 j h))
         + 5 * (src (i + w * jm5 j) + src (i + w * jp6 j h)) + 256) 9

/-- Loop body of `__conv420to422` for one `(i, j)` (lines 564-591): the even
output line `j2 = j << 1` and the odd line `j2+1` are each stored by the two
consecutive assignments of the source (first `pel if pel > 0 else 0`, then,
overwriting it, `pel if pel < 255 else 255`). -/
def body420 (src : Nat → Int) (w h i j : Nat) (dst : Nat → Int) : Nat → Int :=
  let j2 := j <<< 1
  let pelE := pel420even src w h i j
  let dst1 := updf dst (i + w * j2) (if pelE > 0 then pelE else 0)
  let dst2 := updf dst1 (i + w * j2) (if pelE < 255 then pelE else 255)
  let pelO := pel420odd src w h i j
  let dst3 := updf dst2 (i + w * (j2 + 1)) (if pelO > 0 then pelO else 0)
  updf dst3 (i + w * (j2 + 1)) (if pelO < 255 then pelO else 255)

/-- Embeds `YCbCr.__conv420to422` (lines 553-592): `w = width >> 1`,
`h = height >> 1`, loop `for i in xrange(w): for j in xrange(h)`. -/
def conv420to422 (src : Nat → Int) (width height : Nat) (dst : Nat → Int) : Nat → Int :=
  (List.range (width >>> 1)).foldl
    (fun dst i =>
      (List.range (height >>> 1)).foldl
        (fun dst j => body420 src (width >>> 1) (height >>> 1) i j dst) dst)
    dst

/-- Loop body of `__conv422to420` for one `(i, j)` (lines 607-630): the
output row `j >> 1` is stored by the two consecutive assignments of the
source (first `pel if pel > 0 else 0`, then, overwriting it,
`pel if pel < 255 else 255`). -/
def body422 (src : Nat → Int) (w h i j : Nat) (dst : Nat → Int) : Nat → Int :=
  let pel := pel422 src w h i j
  let dst1 := updf dst (i + w * (j >>> 1)) (if pel > 0 then pel else 0)
  updf dst1 (i + w * (j >>> 1)) (if pel < 255 then pel else 255)

/-- Embeds `YCbCr.__conv422to420` (lines 594-631): `w = width >> 1`,
`h = height`, loop `for i in xrange(w): for j in xrange(0, h, 2)`. -/
def conv422to420 (src : Nat → Int) (width height : Nat) (dst : Nat → Int) : Nat → Int :=
  (List.range (width >>> 1)).foldl
    (fun dst i =>
      (rangeStep height 2).foldl
        (fun dst j => body422 src (width >>> 1) height i j dst) dst)
    dst

/-- The `f420` tuple of `__resample` (line 536). -/
def f420 : List Fmt := [.YV12, .IYUV]

/-- The `f422` tuple of `__resample` (line 537). -/
def f422 : List Fmt := [.UYVY, .YVYU, .YUY2, .Y422]

/-- Embeds `YCbCr.__resample` (lines 532-551): two sequential conditionals;
the freshly allocated destinations `[0]*(w*h/2)` and `[0]*(w*h/4)` are the
all-zero buffers.  The second conditional reads the planes possibly updated
by the first, exactly as the source mutates `self.cb`/`self.cr` in place. -/
def resample (fin fout : Fmt) (width height : Nat) (y cb cr : Nat → Int) :
    (Nat → Int) × (Nat → Int) × (Nat → Int) :=
  let s1 :=
    if fin ∈ f420 ∧ fout ∈ f422 then
      (conv420to422 cb width height (fun _ => 0),
       conv420to422 cr width height (fun _ => 0))
    else (cb, cr)
  let s2 :=
    if fin ∈ f422 ∧ fout ∈ f420 then
      (conv422to420 s1.1 width height (fun _ => 0),
       conv422to420 s1.2 width height (fun _ => 0))
    else s1
  (y, s2.1, s2.2)

/-- Embeds the `array.array('B', data)` packing of `__write_frame`
(line 530): packing the `n`-byte buffer succeeds only when every sample is
in `[0, 255]`; any other value makes the constructor raise `OverflowError`,
which aborts the conversion, modelled by `none`. -/
def pack_bytes (data : Nat → Int) (n : Nat) : Option (Nat → Int) :=
  if ∀ p, p < n → 0 ≤ data p ∧ data p ≤ 255 then some data else none

/-- Embeds `YCbCr.__write_frame` (lines 518-530): resample, scatter into a
fresh `frame_size_out` buffer, then pack it with `array.array('B', data)`
(line 530), which raises `OverflowError` — `none` — if any stored sample
lies outside `[0, 255]`. -/
def write_frame (fin fout : Fmt) (width height : Nat)
    (planes : (Nat → Int) × (Nat → Int) × (Nat → Int)) : Option (Nat → Int) :=
  match resample fin fout width height planes.1 planes.2.1 planes.2.2 with
  | (y2, cb2, cr2) =>
    pack_bytes (encode_frame fout width height y2 cb2 cr2)
      (get_frame_size fout width height)

/-- Embeds `self.num_frames = os.path.getsize(filename) / frame_size_in`
(line 196): Python 2 floor division of the file size by the frame size. -/
def num_frames (fileSize frame_size_in : Nat) : Nat := fileSize / frame_size_in

/-- Embeds `YCbCr.__read_frame`'s positioning of frame `k` in the file
(`raw.fromfile` reads `frame_size_in` bytes starting at offset
`k * frame_size_in`) followed by the layout application. -/
def read_frame_at (fin : Fmt) (width height : Nat) (file : Nat → Int) (k : Nat) :
    (Nat → Int) × (Nat → Int) × (Nat → Int) :=
  read_frame (get_layout fin width height)
    (fun p => file (k * get_frame_size fin width height + p))

/-- One frame per step of `YCbCr.convert`'s loop (lines 237-242), in frame
order: the first frame whose `array('B')` packing raises propagates the
exception, so the conversion aborts (`none`) and no later frame is
processed. -/
def writeLoop (fin fout : Fmt) (width height : Nat) (file : Nat → Int) :
    List Nat → Option (List (Nat → Int))
  | [] => some []
  | k :: ks =>
    match write_frame fin fout width height (read_frame_at fin width height file k) with
    | none => none
    | some data =>
      match writeLoop fin fout width height file ks with
      | none => none
      | some rest => some (data :: rest)

/-- Embeds `YCbCr.convert` (lines 229-244): `num_frames` loop iterations,
each reading, resampling, encoding and packing one frame; `some` list of
the encoded frames when every frame packs, `none` when an `OverflowError`
aborts the conversion. -/
def convert (fin fout : Fmt) (width height : Nat) (file : Nat → Int) (fileSize : Nat) :
    Option (List (Nat → Int)) :=
  writeLoop fin fout width height file
    (List.range (num_frames fileSize (get_frame_size fin width height)))

/-- Embeds `YCbCr.__check` (lines 482-501) as the list of warnings printed
to the error stream; the function is total: it never raises, every branch
only appends a warning.  The float comparison
`self.num_frames == size / float(self.frame_size_in)` is modelled by the
exact rational comparison. -/
def check_warnings (width height fileSize frame_size_in : Nat) (diffSize : Option Nat) :
    List String :=
  (if width &&& 0xF ≠ 0 then ["[WARNING] - width not divisable by 16"] else []) ++
  (if height &&& 0xF ≠ 0 then ["[WARNING] - hight not divisable by 16"] else []) ++
  (if ¬ ((num_frames fileSize frame_size_in : ℚ) = (fileSize : ℚ) / (frame_size_in : ℚ)) then
    ["[WARNING] - # frames not integer"] else []) ++
  (match diffSize with
   | some s => if ¬ (fileSize = s) then ["[WARNING] - file-sizes are not equal"] else []
   | none => [])

/-! Generic machinery: characterizing a left fold of single-position buffer
writes by the last write that hits a given position. -/

/-- A fold whose every step leaves position `q` unchanged leaves `q` at its
initial value. -/
theorem foldl_frame {α : Type} (B : (Nat → Int) → α → (Nat → Int)) (q : Nat) :
    ∀ (L : List α) (d0 : Nat → Int), (∀ d y, y ∈ L → B d y q = d q) →
      (L.foldl B d0) q = d0 q := by
  intro L
  induction L with
  | nil => intro d0 _; rfl
  | cons a L ih =>
    intro d0 h
    rw [List.foldl_cons, ih (B d0 a) (fun d y hy => h d y (List.mem_cons_of_mem a hy))]
    exact h d0 a (List.mem_cons_self a L)

/-- If every fold step satisfying `P` writes the value `v` at `q`, every
step not satisfying `P` leaves `q` unchanged, and some step satisfies `P`,
then the fold ends with `v` at `q`. -/
theorem foldl_write {α : Type} (B : (Nat → Int) → α → (Nat → Int)) (q : Nat) (v : Int)
    (P : α → Prop) :
    ∀ (L : List α) (d0 : Nat → Int),
      (∀ d y, y ∈ L → ¬ P y → B d y q = d q) →
      (∀ d y, y ∈ L → P y → B d y q = v) →
      (∃ y, y ∈ L ∧ P y) →
      (L.foldl B d0) q = v := by
  intro L
  induction L with
  | nil =>
    rintro d0 _ _ ⟨y, hy, _⟩
    exact absurd hy (List.not_mem_nil y)
  | cons a L ih =>
    intro d0 hframe hval hex
    rw [List.foldl_cons]
    by_cases hP : ∃ y, y ∈ L ∧ P y
    · exact ih (B d0 a)
        (fun d y hy => hframe d y (List.mem_cons_of_mem a hy))
        (fun d y hy => hval d y (List.mem_cons_of_mem a hy)) hP
    · have hPa : P a := by
        rcases hex with ⟨y, hy, hPy⟩
        rcases List.mem_cons.mp hy with h | h
        · exact h ▸ hPy
        · exact absurd ⟨y, h, hPy⟩ hP
      have hfr : ∀ d y, y ∈ L → B d y q = d q := by
        intro d y hy
        exact hframe d y (List.mem_cons_of_mem a hy)
          (fun hPy => hP ⟨y, hy, hPy⟩)
      rw [foldl_frame B q L (B d0 a) hfr]
      exact hval d0 a (List.mem_cons_self a L) hPa

theorem mem_prodList {p : Nat × Nat} :
    ∀ {is js : List Nat}, p ∈ prodList is js ↔ p.1 ∈ is ∧ p.2 ∈ js := by
  intro is
  induction is with
  | nil => intro js; simp [prodList]
  | cons a is ih =>
    intro js
    simp only [prodList, List.mem_append, List.mem_map, ih, List.mem_cons]
    constructor
    · rintro (⟨j, hj, rfl⟩ | ⟨h1, h2⟩)
      · exact ⟨Or.inl rfl, hj⟩
      · exact ⟨Or.inr h1, h2⟩
    · rintro ⟨h1 | h1, h2⟩
      · exact Or.inl ⟨p.2, h2, by rw [← h1]⟩
      · exact Or.inr ⟨h1, h2⟩

/-- A nested left fold over two index lists equals the flat left fold over
the pair list. -/
theorem foldl_prod {δ : Type} (g : Nat → Nat → δ → δ) :
    ∀ (is : List Nat) (js : List Nat) (d : δ),
      is.foldl (fun d i => js.foldl (fun d j => g i j d) d) d
        = (prodList is js).foldl (fun d p => g p.1 p.2 d) d := by
  intro is
  induction is with
  | nil => intro js d; rfl
  | cons a is ih =>
    intro js d
    rw [List.foldl_cons, prodList, List.foldl_append, ih, List.foldl_map]

theorem shiftRight_one_eq (n : Nat) : n >>> 1 = n / 2 := rfl

theorem shiftLeft_one_eq (n : Nat) : n <<< 1 = 2 * n := by
  rw [Nat.shiftLeft_eq]
  omega

theorem mem_rangeStep2 {j h : Nat} : j ∈ rangeStep h 2 ↔ j % 2 = 0 ∧ j < h := by
  simp only [rangeStep, List.mem_map, List.mem_range]
  constructor
  · rintro ⟨u, hu, rfl⟩
    omega
  · rintro ⟨h1, h2⟩
    exact ⟨j / 2, by omega, by omega⟩

/-- Decompose `a + w*b = c + w*d` when `a, c < w`. -/
theorem addMul_inj {w a b c d : Nat} (ha : a < w) (hc : c < w)
    (h : a + w * b = c + w * d) : a = c ∧ b = d := by
  have h1 : (a + w * b) % w = a % w := Nat.add_mul_mod_self_left a w b
  have h2 : (c + w * d) % w = c % w := Nat.add_mul_mod_self_left c w d
  have ha' : a % w = a := Nat.mod_eq_of_lt ha
  have hc' : c % w = c := Nat.mod_eq_of_lt hc
  have hac : a = c := by rw [← ha', ← h1, h, h2, hc']
  refine ⟨hac, ?_⟩
  have hw : 0 < w := Nat.lt_of_le_of_lt (Nat.zero_le a) ha
  have : w * b = w * d := by omega
  exact Nat.eq_of_mul_eq_mul_left hw this

theorem body422_at_target (src : Nat → Int) (w h i j : Nat) (d : Nat → Int) :
    body422 src w h i j d (i + w * (j >>> 1))
      = (if pel422 src w h i j < 255 then pel422 src w h i j else 255) := by
  simp [body422, updf]

theorem body422_frame (src : Nat → Int) (w h i j : Nat) (d : Nat → Int) (q : Nat)
    (hq : q ≠ i + w * (j >>> 1)) : body422 src w h i j d q = d q := by
  simp [body422, updf, hq]

/-- Per-position characterization of `__conv422to420`: column `i`, input row
pair starting at `j = 2*t`, output position `i + w*t`.  The value stored is
the source's second assignment `pel if pel < 255 else 255` (the first
assignment is overwritten before the iteration ends). -/
theorem conv422to420_apply (src : Nat → Int) (width height : Nat) (dst0 : Nat → Int)
    (i t : Nat) (hi : i < width >>> 1) (ht : 2 * t < height) :
    conv422to420 src width height dst0 (i + (width >>> 1) * t)
      = (if pel422 src (width >>> 1) height i (2 * t) < 255 then
          pel422 src (width >>> 1) height i (2 * t) else 255) := by
  have hw0 : 0 < width >>> 1 := Nat.lt_of_le_of_lt (Nat.zero_le i) hi
  unfold conv422to420
  rw [foldl_prod (fun i j d => body422 src (width >>> 1) height i j d)]
  apply foldl_write _ _ _
    (fun p : Nat × Nat => p.1 + (width >>> 1) * (p.2 >>> 1) = i + (width >>> 1) * t)
  · intro d y _ hnP
    exact body422_frame src (width >>> 1) height y.1 y.2 d _ (fun h => hnP h.symm)
  · intro d y hy hP
    obtain ⟨hy1, hy2⟩ := mem_prodList.mp hy
    have h1 : y.1 < width >>> 1 := List.mem_range.mp hy1
    obtain ⟨he, hlt⟩ := mem_rangeStep2.mp hy2
    obtain ⟨e1, e2⟩ := addMul_inj h1 hi hP
    have e3 : y.2 = 2 * t := by
      rw [shiftRight_one_eq] at e2
      omega
    have hy' : y = (i, 2 * t) := Prod.ext e1 e3
    rw [hy']
    have hpos : i + (width >>> 1) * t = i + (width >>> 1) * ((2 * t) >>> 1) := by
      rw [shiftRight_one_eq]
      congr 2
      omega
    rw [hpos]
    exact body422_at_target src (width >>> 1) height i (2 * t) d
  · refine ⟨(i, 2 * t), mem_prodList.mpr ⟨List.mem_range.mpr hi, mem_rangeStep2.mpr ⟨by omega, ht⟩⟩, ?_⟩
    simp only [shiftRight_one_eq]
    congr 2
    omega

theorem body420_frame (src : Nat → Int) (w h i j : Nat) (d : Nat → Int) (q : Nat)
    (hq1 : q ≠ i + w * (j <<< 1)) (hq2 : q ≠ i + w * ((j <<< 1) + 1)) :
    body420 src w h i j d q = d q := by
  simp [body420, updf, hq1, hq2]

theorem body420_at_even (src : Nat → Int) (w h i j : Nat) (d : Nat → Int)
    (hw : 0 < w) :
    body420 src w h i j d (i + w * (j <<< 1))
      = (if pel420even src w h i j < 255 then pel420even src w h i j else 255) := by
  have hne : i + w * (j <<< 1) ≠ i + w * ((j <<< 1) + 1) := by
    have h1 : w * ((j <<< 1) + 1) = w * (j <<< 1) + w := by ring
    omega
  simp [body420, updf, hne]

theorem body420_at_odd (src : Nat → Int) (w h i j : Nat) (d : Nat → Int) :
    body420 src w h i j d (i + w * ((j <<< 1) + 1))
      = (if pel420odd src w h i j < 255 then pel420odd src w h i j else 255) := by
  simp [body420, updf]

/-- Per-position characterization of `__conv420to422`: column `i`, output
row `r < 2*h` comes from input row `r/2`; even rows store the even-line FIR
value, odd rows the odd-line one, each through the source's second
assignment `pel if pel < 255 else 255`. -/
theorem conv420to422_apply (src : Nat → Int) (width height : Nat) (dst0 : Nat → Int)
    (i r : Nat) (hi : i < width >>> 1) (hr : r < 2 * (height >>> 1)) :
    conv420to422 src width height dst0 (i + (width >>> 1) * r)
      = (if r % 2 = 0 then
          (if pel420even src (width >>> 1) (height >>> 1) i (r / 2) < 255 then
            pel420even src (width >>> 1) (height >>> 1) i (r / 2) else 255)
         else
          (if pel420odd src (width >>> 1) (height >>> 1) i (r / 2) < 255 then
            pel420odd src (width >>> 1) (height >>> 1) i (r / 2) else 255)) := by
  have hw0 : 0 < width >>> 1 := Nat.lt_of_le_of_lt (Nat.zero_le i) hi
  unfold conv420to422
  rw [foldl_prod (fun i j d => body420 src (width >>> 1) (height >>> 1) i j d)]
  apply foldl_write _ _ _
    (fun p : Nat × Nat =>
      i + (width >>> 1) * r = p.1 + (width >>> 1) * (p.2 <<< 1) ∨
      i + (width >>> 1) * r = p.1 + (width >>> 1) * ((p.2 <<< 1) + 1))
  · intro d y _ hnP
    exact body420_frame src _ _ y.1 y.2 d _
      (fun h => hnP (Or.inl h)) (fun h => hnP (Or.inr h))
  · intro d y hy hP
    obtain ⟨hy1, hy2⟩ := mem_prodList.mp hy
    have h1 : y.1 < width >>> 1 := List.mem_range.mp hy1
    have h2 : y.2 < height >>> 1 := List.mem_range.mp hy2
    rcases hP with hP | hP
    · obtain ⟨e1, e2⟩ := addMul_inj hi h1 hP
      have he : r % 2 = 0 ∧ r / 2 = y.2 := by
        rw [shiftLeft_one_eq] at e2
        omega
      have hy' : y = (i, r / 2) := Prod.ext e1.symm he.2.symm
      rw [hy']
      have hpos : i + (width >>> 1) * r = i + (width >>> 1) * ((r / 2) <<< 1) := by
        rw [shiftLeft_one_eq]
        congr 2
        omega
      rw [hpos, if_pos he.1]
      exact body420_at_even src _ _ i (r / 2) d hw0
    · obtain ⟨e1, e2⟩ := addMul_inj hi h1 hP
      have he : r % 2 = 1 ∧ r / 2 = y.2 := by
        rw [shiftLeft_one_eq] at e2
        omega
      have hy' : y = (i, r / 2) := Prod.ext e1.symm he.2.symm
      rw [hy']
      have hpos : i + (width >>> 1) * r = i + (width >>> 1) * (((r / 2) <<< 1) + 1) := by
        rw [shiftLeft_one_eq]
        congr 2
        omega
      rw [hpos, if_neg (by omega : ¬ r % 2 = 0)]
      exact body420_at_odd src _ _ i (r / 2) d
  · refine ⟨(i, r / 2), mem_prodList.mpr ⟨List.mem_range.mpr hi, List.mem_range.mpr (by omega)⟩, ?_⟩
    simp only [shiftLeft_one_eq]
    rcases Nat.mod_two_eq_zero_or_one r with he | ho
    · left
      congr 2
      omega
    · right
      congr 2
      omega

/-! Bounds of the tap rows and of the buffer indices built from them. -/

theorem idx_lt {i x w h : Nat} (hi : i < w) (hx : x < h) : i + w * x < w * h := by
  have h1 : i + w * x < w * (x + 1) := by
    have : w * (x + 1) = w * x + w := by ring
    omega
  have h2 : w * (x + 1) ≤ w * h := Nat.mul_le_mul (Nat.le_refl w) hx
  omega

theorem jm1_lt {j h : Nat} (hj : j < h) : jm1 j < h := by
  simp only [jm1]; split <;> omega

theorem jm2_lt {j h : Nat} (hj : j < h) : jm2 j < h := by
  simp only [jm2]; split <;> omega

theorem jm3_lt {j h : Nat} (hj : j < h) : jm3 j < h := by
  simp only [jm3]; split <;> omega

theorem jm4_lt {j h : Nat} (hj : j < h) : jm4 j < h := by
  simp only [jm4]; split <;> omega

theorem jm5_lt {j h : Nat} (hj : j < h) : jm5 j < h := by
  simp only [jm5]; split <;> omega

theorem jp1_lt {j h : Nat} (hj : j < h) : jp1 j h < h := by
  simp only [jp1]; split <;> omega

theorem jp2_lt {j h : Nat} (hj : j < h) : jp2 j h < h := by
  simp only [jp2]; split <;> omega

theorem jp3_lt {j h : Nat} (hj : j < h) : jp3 j h < h := by
  simp only [jp3]; split <;> omega

theorem jp4_lt {j h : Nat} (hj : j < h) : jp4 j h < h := by
  simp only [jp4]; split <;> omega

theorem jp5_lt {j h : Nat} (hj : j < h) : jp5 j h < h := by
  simp only [jp5]; split <;> omega

theorem jp6_lt {j h : Nat} (hj : j < h) : jp6 j h < h := by
  simp only [jp6]; split <;> omega

/-! The tap rows in the claim's `max`/`min` normal form. -/

theorem jm1_eq (j : Nat) : jm1 j = j - 1 := by
  simp only [jm1]; split <;> omega

theorem jm2_eq (j : Nat) : jm2 j = j - 2 := by
  simp only [jm2]; split <;> omega

theorem jm3_eq (j : Nat) : jm3 j = j - 3 := by
  simp only [jm3]; split <;> omega

theorem jm4_eq (j : Nat) : jm4 j = j - 4 := by
  simp only [jm4]; split <;> omega

theorem jm5_eq (j : Nat) : jm5 j = j - 5 := by
  simp only [jm5]; split <;> omega

theorem jp1_eq (j h : Nat) : jp1 j h = min (j + 1) (h - 1) := by
  simp only [jp1]; split <;> omega

theorem jp2_eq (j h : Nat) : jp2 j h = min (j + 2) (h - 1) := by
  simp only [jp2]; split <;> omega

theorem jp3_eq (j h : Nat) : jp3 j h = min (j + 3) (h - 1) := by
  simp only [jp3]; split <;> omega

theorem jp4_eq (j h : Nat) : jp4 j h = min (j + 4) (h - 1) := by
  simp only [jp4]; split <;> omega

theorem jp5_eq (j h : Nat) : jp5 j h = min (j + 5) (h - 1) := by
  simp only [jp5]; split <;> omega

theorem jp6_eq (j h : Nat) : jp6 j h = min (j + 5) (h - 1) := by
  simp only [jp6]; split <;> omega

theorem pel422_claim_eq (src : Nat → Int) (w h i j : Nat) :
    pel422 src w h i j = pel422_claim src w h i j := by
  unfold pel422 pel422_claim
  rw [jm1_eq, jm2_eq, jm3_eq, jm4_eq, jm5_eq, jp1_eq, jp2_eq, jp3_eq, jp4_eq,
    jp5_eq, jp6_eq]

/-! Constant input planes reproduce the constant: the taps sum to the
rounding denominator in both filters. -/

theorem fdiv_mul512 (c : Int) : Int.fdiv (512 * c + 256) 512 = c := by
  rw [Int.fdiv_eq_ediv _ (by norm_num : (0 : Int) ≤ 512)]
  omega

theorem fdiv_mul256 (c : Int) : Int.fdiv (256 * c + 128) 256 = c := by
  rw [Int.fdiv_eq_ediv _ (by norm_num : (0 : Int) ≤ 256)]
  omega

theorem pel422_const (src : Nat → Int) (w h i j : Nat) (c : Int)
    (hsrc : ∀ n, n < w * h → src n = c) (hi : i < w) (hj : j < h) :
    pel422 src w h i j = c := by
  have r0 : src (i + w * j) = c := hsrc _ (idx_lt hi hj)
  have r1 : src (i + w * jp1 j h) = c := hsrc _ (idx_lt hi (jp1_lt hj))
  have r2 : src (i + w * jm1 j) = c := hsrc _ (idx_lt hi (jm1_lt hj))
  have r3 : src (i + w * jp2 j h) = c := hsrc _ (idx_lt hi (jp2_lt hj))
  have r4 : src (i + w * jm2 j) = c := hsrc _ (idx_lt hi (jm2_lt hj))
  have r5 : src (i + w * jp3 j h) = c := hsrc _ (idx_lt hi (jp3_lt hj))
  have r6 : src (i + w * jm3 j) = c := hsrc _ (idx_lt hi (jm3_lt hj))
  have r7 : src (i + w * jp4 j h) = c := hsrc _ (idx_lt hi (jp4_lt hj))
  have r8 : src (i + w * jm4 j) = c := hsrc _ (idx_lt hi (jm4_lt hj))
  have r9 : src (i + w * jp5 j h) = c := hsrc _ (idx_lt hi (jp5_lt hj))
  have r10 : src (i + w * jm5 j) = c := hsrc _ (idx_lt hi (jm5_lt hj))
  have r11 : src (i + w * jp6 j h) = c := hsrc _ (idx_lt hi (jp6_lt hj))
  unfold pel422 pyShr
  rw [r0, r1, r2, r3, r4, r5, r6, r7, r8, r9, r10, r11]
  have hsum : (228 * (c + c) + 70 * (c + c) - 37 * (c + c) - 21 * (c + c)
      + 11 * (c + c) + 5 * (c + c) + 256 : Int) = 512 * c + 256 := by ring
  have hpow : (2 : Int) ^ 9 = 512 := by norm_num
  rw [hsum, hpow, fdiv_mul512]

theorem pel420even_const (src : Nat → Int) (w h i j : Nat) (c : Int)
    (hsrc : ∀ n, n < w * h → src n = c) (hi : i < w) (hj : j < h) :
    pel420even src w h i j = c := by
  have r0 : src (i + w * jm3 j) = c := hsrc _ (idx_lt hi (jm3_lt hj))
  have r1 : src (i + w * jm2 j) = c := hsrc _ (idx_lt hi (jm2_lt hj))
  have r2 : src (i + w * jm1 j) = c := hsrc _ (idx_lt hi (jm1_lt hj))
  have r3 : src (i + w * j) = c := hsrc _ (idx_lt hi hj)
  have r4 : src (i + w * jp1 j h) = c := hsrc _ (idx_lt hi (jp1_lt hj))
  have r5 : src (i + w * jp2 j h) = c := hsrc _ (idx_lt hi (jp2_lt hj))
  unfold pel420even pyShr
  rw [r0, r1, r2, r3, r4, r5]
  have hsum : (3 * c - 16 * c + 67 * c + 227 * c - 32 * c + 7 * c + 128 : Int)
      = 256 * c + 128 := by ring
  have hpow : (2 : Int) ^ 8 = 256 := by norm_num
  rw [hsum, hpow, fdiv_mul256]

theorem pel420odd_const (src : Nat → Int) (w h i j : Nat) (c : Int)
    (hsrc : ∀ n, n < w * h → src n = c) (hi : i < w) (hj : j < h) :
    pel420odd src w h i j = c := by
  have r0 : src (i + w * jp3 j h) = c := hsrc _ (idx_lt hi (jp3_lt hj))
  have r1 : src (i + w * jp2 j h) = c := hsrc _ (idx_lt hi (jp2_lt hj))
  have r2 : src (i + w * jp1 j h) = c := hsrc _ (idx_lt hi (jp1_lt hj))
  have r3 : src (i + w * j) = c := hsrc _ (idx_lt hi hj)
  have r4 : src (i + w * jm1 j) = c := hsrc _ (idx_lt hi (jm1_lt hj))
  have r5 : src (i + w * jm2 j) = c := hsrc _ (idx_lt hi (jm2_lt hj))
  unfold pel420odd pyShr
  rw [r0, r1, r2, r3, r4, r5]
  have hsum : (3 * c - 16 * c + 67 * c + 227 * c - 32 * c + 7 * c + 128 : Int)
      = 256 * c + 128 := by ring
  have hpow : (2 : Int) ^ 8 = 256 := by norm_num
  rw [hsum, hpow, fdiv_mul256]

/-! Claim theorems. -/

/-- C1 (amended): for even width and height, column `i < width/2` and output
row `t < height/2` (input row pair `j = 2*t`), the downsampler stores at
output position `i + (width/2)*t` the value `min(pel, 255)` of the pre-clamp
FIR value `pel` built exactly as the claim words it: backward taps
`max(j-k,0)` for `k = 1..5`, forward taps `min(j+k, height-1)` for
`k = 1..4` and the fifth and sixth forward taps both `min(j+5, height-1)`,
then `(... + 256) >> 9`.  The amendment forced by `c1_clamp_counterexample`:
the stored value is only clamped from above (`min(pel, 255)`), because the
source's lower-clamp assignment is immediately overwritten by the second
assignment. -/
theorem c1_downsample_characterization (width height : Nat) (src dst0 : Nat → Int)
    (i t : Nat) (hw : width % 2 = 0) (hh : height % 2 = 0)
    (hi : i < width >>> 1) (ht : t < height / 2) :
    conv422to420 src width height dst0 (i + (width >>> 1) * t)
      = min (pel422_claim src (width >>> 1) height i (2 * t)) 255 := by
  rw [conv422to420_apply src width height dst0 i t hi (by omega)]
  rw [pel422_claim_eq]
  rw [Int.min_def]
  split_ifs <;> omega

/-- Witness for `c1_downsample_characterization` at
width 2, height 16, the constant-7 plane, `i = 0`, `t = 0`. -/
theorem c1_downsample_characterization_witness :
    2 % 2 = 0 ∧ 16 % 2 = 0 ∧ 0 < 2 >>> 1 ∧ 0 < 16 / 2 ∧
    conv422to420 (fun _ => 7) 2 16 (fun _ => 0) (0 + (2 >>> 1) * 0)
      = min (pel422_claim (fun _ => 7) (2 >>> 1) 16 0 (2 * 0)) 255 :=
  ⟨rfl, rfl, by decide, by decide,
   c1_downsample_characterization 2 16 (fun _ => 7) (fun _ => 0) 0 0 rfl rfl
     (by decide) (by decide)⟩

/-- C1 counterexample: on the plane `srcNeg` (width 2, height 16) the value
the downsampler stores at output position `0 + (width/2)*0` is not the
claimed clamped value `max(0, min(255, pel))`: the FIR value is `-29`, its
clamp is `0`, but the code stores `-29`. -/
theorem c1_clamp_counterexample :
    ¬ (conv422to420 srcNeg 2 16 (fun _ => 0) (0 + (2 >>> 1) * 0)
        = max 0 (min 255 (pel422_claim srcNeg (2 >>> 1) 16 0 (2 * 0)))) := by
  decide

/-- C2 (code bug): on the plane `srcNeg` the downsampler's pre-clamp FIR
value at column 0, row pair 0 is `-29`; the claimed stored value
`max(0, min(255, pel))` is `0`, but the code stores `-29` — a negative
sample — because `dst[i+w*(j>>1)] = pel if pel > 0 else 0` is immediately
overwritten by `dst[i+w*(j>>1)] = pel if pel < 255 else 255`, which passes
any `pel < 255` through, so the lower clamp is dead code.  The same
two-assignment pattern is used on both lines of `__conv420to422`. -/
theorem c2_stored_value_not_clamped :
    conv422to420 srcNeg 2 16 (fun _ => 0) 0 = -29 ∧
    conv422to420 srcNeg 2 16 (fun _ => 0) 0 < 0 ∧
    pel422 srcNeg (2 >>> 1) 16 0 0 = -29 ∧
    max 0 (min 255 (pel422 srcNeg (2 >>> 1) 16 0 0)) = 0 := by
  decide

/-- C4 (code bug): at width 16, height 16 (`wh = 256`, frame size 512),
`Y422.get_layout` returns Cb slice `[256, 640)` and Cr slice `[640, 768)` —
`get_422_partitioning`'s stops are `wh/2*5` and `wh*3` — rather than the
claimed 4:2:2 partition Cb `[256, 384)`, Cr `[384, 512)` of the
`frame_size = 512` buffer. -/
theorem c4_y422_layout_eval :
    Y422.get_layout 16 16 = (⟨0, 256, 1⟩, ⟨256, 640, 1⟩, ⟨640, 768, 1⟩) ∧
    Y422.get_layout 16 16 ≠ (⟨0, 256, 1⟩, ⟨256, 384, 1⟩, ⟨384, 512, 1⟩) ∧
    Y422.get_frame_size 16 16 = 512 := by
  decide

/-- C5 (confirmed): for all even width and height the five input-capable
formats return exactly the layouts of the specification's table, in logical
order (Y, Cb, Cr): YV12 ranges `[0,wh)`, `[wh, wh+wh/4)`,
`[wh+wh/4, wh+wh/2)`; IYUV the same ranges with Cb and Cr swapped; and the
packed formats' stride patterns over the whole `frame_size = 2*wh`. -/
theorem c5_layouts (width height : Nat) (hw : width % 2 = 0) (hh : height % 2 = 0) :
    YV12.get_layout width height =
      (⟨0, width * height, 1⟩,
       ⟨width * height, width * height + width * height / 4, 1⟩,
       ⟨width * height + width * height / 4, width * height + width * height / 2, 1⟩) ∧
    IYUV.get_layout width height =
      (⟨0, width * height, 1⟩,
       ⟨width * height + width * height / 4, width * height + width * height / 2, 1⟩,
       ⟨width * height, width * height + width * height / 4, 1⟩) ∧
    UYVY.get_layout width height =
      (⟨1, width * height * 2, 2⟩, ⟨0, width * height * 2, 4⟩, ⟨2, width * height * 2, 4⟩) ∧
    YVYU.get_layout width height =
      (⟨0, width * height * 2, 2⟩, ⟨3, width * height * 2, 4⟩, ⟨1, width * height * 2, 4⟩) ∧
    YUY2.get_layout width height =
      (⟨0, width * height * 2, 2⟩, ⟨1, width * height * 2, 4⟩, ⟨3, width * height * 2, 4⟩) := by
  obtain ⟨a, ha⟩ : 2 ∣ width := by omega
  obtain ⟨b, hb⟩ : 2 ∣ height := by omega
  have hm : width * height = 4 * (a * b) := by subst ha hb; ring
  have e1 : width * height / 4 * 5 = width * height + width * height / 4 := by omega
  have e2 : width * height / 2 * 3 = width * height + width * height / 2 := by omega
  refine ⟨?_, ?_, rfl, rfl, rfl⟩
  · simp only [YV12.get_layout, Y.get_420_partitioning]
    rw [e1, e2]
  · simp only [IYUV.get_layout, Y.get_420_partitioning]
    rw [e1, e2]

/-- Witness for `c5_layouts` at width 16, height 16. -/
theorem c5_layouts_witness :
    16 % 2 = 0 ∧ 16 % 2 = 0 ∧
    (YV12.get_layout 16 16 =
      (⟨0, 16 * 16, 1⟩,
       ⟨16 * 16, 16 * 16 + 16 * 16 / 4, 1⟩,
       ⟨16 * 16 + 16 * 16 / 4, 16 * 16 + 16 * 16 / 2, 1⟩) ∧
     IYUV.get_layout 16 16 =
      (⟨0, 16 * 16, 1⟩,
       ⟨16 * 16 + 16 * 16 / 4, 16 * 16 + 16 * 16 / 2, 1⟩,
       ⟨16 * 16, 16 * 16 + 16 * 16 / 4, 1⟩) ∧
     UYVY.get_layout 16 16 =
      (⟨1, 16 * 16 * 2, 2⟩, ⟨0, 16 * 16 * 2, 4⟩, ⟨2, 16 * 16 * 2, 4⟩) ∧
     YVYU.get_layout 16 16 =
      (⟨0, 16 * 16 * 2, 2⟩, ⟨3, 16 * 16 * 2, 4⟩, ⟨1, 16 * 16 * 2, 4⟩) ∧
     YUY2.get_layout 16 16 =
      (⟨0, 16 * 16 * 2, 2⟩, ⟨1, 16 * 16 * 2, 4⟩, ⟨3, 16 * 16 * 2, 4⟩)) :=
  ⟨rfl, rfl, c5_layouts 16 16 rfl rfl⟩

/-- C6 (confirmed): `get_frame_size` returns `w*h*3/2` for the 4:2:0 family
(YV12, IYUV) and `w*h*2` for the 4:2:2 family (UYVY, YVYU, YUY2, Y422), for
all widths and heights; in particular 384 for YV12 and 512 for UYVY at
16 times 16. -/
theorem c6_frame_sizes :
    (∀ width height : Nat,
      YV12.get_frame_size width height = width * height * 3 / 2 ∧
      IYUV.get_frame_size width height = width * height * 3 / 2 ∧
      UYVY.get_frame_size width height = width * height * 2 ∧
      YVYU.get_frame_size width height = width * height * 2 ∧
      YUY2.get_frame_size width height = width * height * 2 ∧
      Y422.get_frame_size width height = width * height * 2) ∧
    get_frame_size Fmt.YV12 16 16 = 384 ∧ get_frame_size Fmt.UYVY 16 16 = 512 :=
  ⟨fun _ _ => ⟨rfl, rfl, rfl, rfl, rfl, rfl⟩, by decide, by decide⟩

set_option maxHeartbeats 1000000 in
/-- C3 (confirmed): for each supported input format (every format except
`'422'`, which `__init__` rejects as an input format, so an equal-format
encode/decode pair cannot arise for it) and even dimensions, scattering
planes of the layout's own sizes into a fresh frame buffer and reading them
back through the same layout recovers every plane sample. -/
theorem c3_roundtrip (f : Fmt) (width height : Nat) (y cb cr : Nat → Int) (k : Nat)
    (hf : f ≠ Fmt.Y422) (hw : width % 2 = 0) (hh : height % 2 = 0) :
    (k < sliceLen (get_layout f width height).1 →
      (decode_frame f width height (encode_frame f width height y cb cr)).1 k = y k) ∧
    (k < sliceLen (get_layout f width height).2.1 →
      (decode_frame f width height (encode_frame f width height y cb cr)).2.1 k = cb k) ∧
    (k < sliceLen (get_layout f width height).2.2 →
      (decode_frame f width height (encode_frame f width height y cb cr)).2.2 k = cr k) := by
  obtain ⟨a, ha⟩ : 2 ∣ width := by omega
  obtain ⟨b, hb⟩ : 2 ∣ height := by omega
  have hm : width * height = 4 * (a * b) := by subst ha hb; ring
  cases f with
  | Y422 => exact absurd rfl hf
  | YV12 =>
    refine ⟨fun hk => ?_, fun hk => ?_, fun hk => ?_⟩ <;>
      (simp only [decode_frame, encode_frame, get_layout, YV12.get_layout,
         Y.get_420_partitioning, read_frame, write_scatter, sliceGet, sliceSet,
         sliceLen] at hk ⊢;
       rw [hm] at hk ⊢;
       split_ifs <;> first | (congr 1; omega) | omega)
  | IYUV =>
    refine ⟨fun hk => ?_, fun hk => ?_, fun hk => ?_⟩ <;>
      (simp only [decode_frame, encode_frame, get_layout, IYUV.get_layout,
         Y.get_420_partitioning, read_frame, write_scatter, sliceGet, sliceSet,
         sliceLen] at hk ⊢;
       rw [hm] at hk ⊢;
       split_ifs <;> first | (congr 1; omega) | omega)
  | UYVY =>
    refine ⟨fun hk => ?_, fun hk => ?_, fun hk => ?_⟩ <;>
      (simp only [decode_frame, encode_frame, get_layout, UYVY.get_layout,
         UYVY.get_frame_size, read_frame, write_scatter, sliceGet, sliceSet,
         sliceLen] at hk ⊢;
       rw [hm] at hk ⊢;
       split_ifs <;> first | (congr 1; omega) | omega)
  | YVYU =>
    refine ⟨fun hk => ?_, fun hk => ?_, fun hk => ?_⟩ <;>
      (simp only [decode_frame, encode_frame, get_layout, YVYU.get_layout,
         YVYU.get_frame_size, read_frame, write_scatter, sliceGet, sliceSet,
         sliceLen] at hk ⊢;
       rw [hm] at hk ⊢;
       split_ifs <;> first | (congr 1; omega) | omega)
  | YUY2 =>
    refine ⟨fun hk => ?_, fun hk => ?_, fun hk => ?_⟩ <;>
      (simp only [decode_frame, encode_frame, get_layout, YUY2.get_layout,
         YUY2.get_frame_size, read_frame, write_scatter, sliceGet, sliceSet,
         sliceLen] at hk ⊢;
       rw [hm] at hk ⊢;
       split_ifs <;> first | (congr 1; omega) | omega)

/-- Witness for `c3_roundtrip` at UYVY, width 16, height 16, sample planes,
`k = 5`. -/
theorem c3_roundtrip_witness :
    Fmt.UYVY ≠ Fmt.Y422 ∧ 16 % 2 = 0 ∧ 16 % 2 = 0 ∧
    ((5 < sliceLen (get_layout Fmt.UYVY 16 16).1 →
      (decode_frame Fmt.UYVY 16 16
        (encode_frame Fmt.UYVY 16 16 (fun n => n) (fun n => n + 1000) (fun n => n + 2000))).1 5
        = (5 : Nat) + 0) ∧
     (5 < sliceLen (get_layout Fmt.UYVY 16 16).2.1 →
      (decode_frame Fmt.UYVY 16 16
        (encode_frame Fmt.UYVY 16 16 (fun n => n) (fun n => n + 1000) (fun n => n + 2000))).2.1 5
        = (5 : Nat) + 1000) ∧
     (5 < sliceLen (get_layout Fmt.UYVY 16 16).2.2 →
      (decode_frame Fmt.UYVY 16 16
        (encode_frame Fmt.UYVY 16 16 (fun n => n) (fun n => n + 1000) (fun n => n + 2000))).2.2 5
        = (5 : Nat) + 2000)) :=
  ⟨by decide, rfl, rfl,
   by
    have h := c3_roundtrip Fmt.UYVY 16 16 (fun n => n) (fun n => n + 1000)
      (fun n => n + 2000) 5 (by decide) rfl rfl
    simpa using h⟩

/-- C7 (confirmed): a chroma plane holding the constant `c ∈ [0,255]` is
mapped to a constant-`c` plane by both resamplers, at every position of the
output plane, for all even dimensions at least 16. -/
theorem c7_constant_invariance (width height : Nat) (c : Int)
    (src1 src2 : Nat → Int) (p1 p2 : Nat)
    (hw16 : 16 ≤ width) (hh16 : 16 ≤ height)
    (hw : width % 2 = 0) (hh : height % 2 = 0)
    (hc0 : 0 ≤ c) (hc1 : c ≤ 255)
    (hs1 : ∀ n, n < (width >>> 1) * height → src1 n = c)
    (hp1 : p1 < (width >>> 1) * (height / 2))
    (hs2 : ∀ n, n < (width >>> 1) * (height >>> 1) → src2 n = c)
    (hp2 : p2 < (width >>> 1) * (2 * (height >>> 1))) :
    conv422to420 src1 width height (fun _ => 0) p1 = c ∧
    conv420to422 src2 width height (fun _ => 0) p2 = c := by
  have hw0 : 0 < width >>> 1 := by
    rcases Nat.eq_zero_or_pos (width >>> 1) with h0 | h0
    · rw [h0] at hp1; omega
    · exact h0
  constructor
  · have hi : p1 % (width >>> 1) < width >>> 1 := Nat.mod_lt _ hw0
    have ht : p1 / (width >>> 1) < height / 2 := by
      rw [Nat.div_lt_iff_lt_mul hw0]
      calc p1 < (width >>> 1) * (height / 2) := hp1
        _ = height / 2 * (width >>> 1) := by ring
    have hdec : p1 = p1 % (width >>> 1) + (width >>> 1) * (p1 / (width >>> 1)) :=
      (Nat.mod_add_div p1 (width >>> 1)).symm
    rw [hdec, conv422to420_apply src1 width height _ _ _ hi (by omega),
      pel422_const src1 (width >>> 1) height _ _ c hs1 hi (by omega)]
    split_ifs <;> omega
  · have hi : p2 % (width >>> 1) < width >>> 1 := Nat.mod_lt _ hw0
    have hr : p2 / (width >>> 1) < 2 * (height >>> 1) := by
      rw [Nat.div_lt_iff_lt_mul hw0]
      calc p2 < (width >>> 1) * (2 * (height >>> 1)) := hp2
        _ = 2 * (height >>> 1) * (width >>> 1) := by ring
    have hj : p2 / (width >>> 1) / 2 < height >>> 1 := by omega
    have hdec : p2 = p2 % (width >>> 1) + (width >>> 1) * (p2 / (width >>> 1)) :=
      (Nat.mod_add_div p2 (width >>> 1)).symm
    rw [hdec, conv420to422_apply src2 width height _ _ _ hi hr]
    rcases Nat.mod_two_eq_zero_or_one (p2 / (width >>> 1)) with he | ho
    · rw [if_pos he,
        pel420even_const src2 (width >>> 1) (height >>> 1) _ _ c hs2 hi hj]
      split_ifs <;> omega
    · rw [if_neg (by omega), 
        pel420odd_const src2 (width >>> 1) (height >>> 1) _ _ c hs2 hi hj]
      split_ifs <;> omega

/-- Witness for `c7_constant_invariance` at width 16, height 16, `c = 128`,
constant planes, positions 0 and 0. -/
theorem c7_constant_invariance_witness :
    (16 ≤ 16) ∧ (16 % 2 = 0) ∧ ((0 : Int) ≤ 128) ∧ ((128 : Int) ≤ 255) ∧
    ((0 : Nat) < (16 >>> 1) * (16 / 2)) ∧ ((0 : Nat) < (16 >>> 1) * (2 * (16 >>> 1))) ∧
    (conv422to420 (fun _ => 128) 16 16 (fun _ => 0) 0 = 128 ∧
     conv420to422 (fun _ => 128) 16 16 (fun _ => 0) 0 = 128) :=
  ⟨by decide, rfl, by decide, by decide, by decide, by decide,
   c7_constant_invariance 16 16 128 (fun _ => 128) (fun _ => 128) 0 0
     (by decide) (by decide) rfl rfl (by decide) (by decide)
     (fun n _ => rfl) (by decide) (fun n _ => rfl) (by decide)⟩

/-- C8 (confirmed): `__resample` leaves the Y plane untouched in every case;
it replaces Cb and Cr by their 4:2:0-to-4:2:2 upsampling exactly when the
input format is in the 4:2:0 family and the output format in the 4:2:2
family, by their 4:2:2-to-4:2:0 downsampling exactly when the input is in
the 4:2:2 family and the output in the 4:2:0 family, and passes them through
unchanged in every other case. -/
theorem c8_resample_direction (fin fout : Fmt) (width height : Nat)
    (y cb cr : Nat → Int) :
    resample fin fout width height y cb cr =
      (y,
       if fin ∈ f420 ∧ fout ∈ f422 then
         (conv420to422 cb width height (fun _ => 0),
          conv420to422 cr width height (fun _ => 0))
       else if fin ∈ f422 ∧ fout ∈ f420 then
         (conv422to420 cb width height (fun _ => 0),
          conv422to420 cr width height (fun _ => 0))
       else (cb, cr)) := by
  cases fin <;> cases fout <;> rfl

/-- A `write_frame` call is the packing of the encode of the resampled
planes (structure eta collapses the source's tuple destructuring). -/
theorem write_frame_eq (fin fout : Fmt) (width height : Nat)
    (planes : (Nat → Int) × (Nat → Int) × (Nat → Int)) :
    write_frame fin fout width height planes =
      pack_bytes
        (encode_frame fout width height
          (resample fin fout width height planes.1 planes.2.1 planes.2.2).1
          (resample fin fout width height planes.1 planes.2.1 planes.2.2).2.1
          (resample fin fout width height planes.1 planes.2.1 planes.2.2).2.2)
        (get_frame_size fout width height) := rfl

/-- Every sample the scatter stores is either a plane sample or the fill
value 0, so planes within `[0, 255]` yield a frame buffer within
`[0, 255]`. -/
theorem encode_frame_in_range (f : Fmt) (width height : Nat) (y cb cr : Nat → Int)
    (hy : ∀ m, 0 ≤ y m ∧ y m ≤ 255) (hcb : ∀ m, 0 ≤ cb m ∧ cb m ≤ 255)
    (hcr : ∀ m, 0 ≤ cr m ∧ cr m ≤ 255) (p : Nat) :
    0 ≤ encode_frame f width height y cb cr p ∧
      encode_frame f width height y cb cr p ≤ 255 := by
  simp only [encode_frame, write_scatter, sliceSet]
  split_ifs
  · exact hcr _
  · exact hcb _
  · exact hy _
  · exact ⟨le_refl 0, by norm_num⟩

/-- When every frame of the loop packs successfully, the loop completes and
returns one encoded frame per index. -/
theorem writeLoop_complete (fin fout : Fmt) (width height : Nat) (file : Nat → Int) :
    ∀ L : List Nat,
      (∀ k, k ∈ L → ∃ d, write_frame fin fout width height
          (read_frame_at fin width height file k) = some d) →
      ∃ frames, writeLoop fin fout width height file L = some frames ∧
        frames.length = L.length := by
  intro L
  induction L with
  | nil => intro _; exact ⟨[], rfl, rfl⟩
  | cons a L ih =>
    intro h
    obtain ⟨d, hd⟩ := h a (List.mem_cons_self a L)
    obtain ⟨frames, hf, hlen⟩ := ih (fun k hk => h k (List.mem_cons_of_mem a hk))
    refine ⟨d :: frames, ?_, by simp [hlen]⟩
    simp only [writeLoop]
    rw [hd, hf]

/-- C9 (amended): whenever the file size is not an exact multiple of the
input frame size, the frame count used is the floor of the division and the
embedded `__check` (a total function returning a warning list: no branch of
it aborts) emits the "# frames not integer" warning on the error stream;
and `convert` processes exactly that many frames to completion provided the
file is a valid byte stream and every resampled chroma sample lies in
`[0, 255]`.  The amendment forced by `c9_abort_counterexample`: without
that proviso the `array.array('B', data)` packing of `__write_frame`
(line 530) raises `OverflowError` on the negative samples that the dead
lower clamp can emit, and the conversion aborts instead of completing. -/
theorem c9_floor_frames_and_warning (fin fout : Fmt) (width height : Nat)
    (file : Nat → Int) (fileSize : Nat)
    (hfs : 0 < get_frame_size fin width height)
    (hnd : ¬ (get_frame_size fin width height ∣ fileSize))
    (hfile : ∀ n, 0 ≤ file n ∧ file n ≤ 255)
    (hres : ∀ k, k < num_frames fileSize (get_frame_size fin width height) →
      (∀ m, 0 ≤ (resample fin fout width height
            (read_frame_at fin width height file k).1
            (read_frame_at fin width height file k).2.1
            (read_frame_at fin width height file k).2.2).2.1 m ∧
          (resample fin fout width height
            (read_frame_at fin width height file k).1
            (read_frame_at fin width height file k).2.1
            (read_frame_at fin width height file k).2.2).2.1 m ≤ 255) ∧
      (∀ m, 0 ≤ (resample fin fout width height
            (read_frame_at fin width height file k).1
            (read_frame_at fin width height file k).2.1
            (read_frame_at fin width height file k).2.2).2.2 m ∧
          (resample fin fout width height
            (read_frame_at fin width height file k).1
            (read_frame_at fin width height file k).2.1
            (read_frame_at fin width height file k).2.2).2.2 m ≤ 255)) :
    (∃ frames, convert fin fout width height file fileSize = some frames ∧
      frames.length = fileSize / get_frame_size fin width height) ∧
    "[WARNING] - # frames not integer" ∈
      check_warnings width height fileSize (get_frame_size fin width height) none := by
  constructor
  · have hall : ∀ k, k ∈ List.range (num_frames fileSize (get_frame_size fin width height)) →
        ∃ d, write_frame fin fout width height
          (read_frame_at fin width height file k) = some d := by
      intro k hk
      obtain ⟨hcb, hcr⟩ := hres k (List.mem_range.mp hk)
      have hy : ∀ m, 0 ≤ (resample fin fout width height
            (read_frame_at fin width height file k).1
            (read_frame_at fin width height file k).2.1
            (read_frame_at fin width height file k).2.2).1 m ∧
          (resample fin fout width height
            (read_frame_at fin width height file k).1
            (read_frame_at fin width height file k).2.1
            (read_frame_at fin width height file k).2.2).1 m ≤ 255 :=
        fun m => hfile _
      rw [write_frame_eq]
      unfold pack_bytes
      rw [if_pos (fun p _ =>
        encode_frame_in_range fout width height _ _ _ hy hcb hcr p)]
      exact ⟨_, rfl⟩
    obtain ⟨frames, hconv, hlen⟩ :=
      writeLoop_complete fin fout width height file _ hall
    refine ⟨frames, hconv, ?_⟩
    rw [hlen, List.length_range]
    rfl
  · have hcond : ¬ ((num_frames fileSize (get_frame_size fin width height) : ℚ)
        = (fileSize : ℚ) / (get_frame_size fin width height : ℚ)) := by
      intro heq
      apply hnd
      have hfs0 : ((get_frame_size fin width height : Nat) : ℚ) ≠ 0 :=
        Nat.cast_ne_zero.mpr (by omega)
      rw [eq_div_iff hfs0] at heq
      have hnat : (fileSize / get_frame_size fin width height)
          * get_frame_size fin width height = fileSize := by
        exact_mod_cast heq
      exact ⟨fileSize / get_frame_size fin width height,
        by rw [Nat.mul_comm]; exact hnat.symm⟩
    simp only [check_warnings, List.mem_append]
    left; right
    rw [if_pos hcond]
    exact List.mem_singleton_self _

/-- Witness for `c9_floor_frames_and_warning`: same-family YV12-to-YV12
conversion of a 500-byte all-zero file with 384-byte frames. -/
theorem c9_floor_frames_and_warning_witness :
    0 < get_frame_size Fmt.YV12 16 16 ∧
    ¬ (get_frame_size Fmt.YV12 16 16 ∣ 500) ∧
    (∀ n : Nat, (0 : Int) ≤ (fun _ => (0 : Int)) n ∧ (fun _ => (0 : Int)) n ≤ 255) ∧
    ((∃ frames, convert Fmt.YV12 Fmt.YV12 16 16 (fun _ => 0) 500 = some frames ∧
        frames.length = 500 / get_frame_size Fmt.YV12 16 16) ∧
     "[WARNING] - # frames not integer" ∈
       check_warnings 16 16 500 (get_frame_size Fmt.YV12 16 16) none) :=
  ⟨by decide, by decide, fun n => ⟨le_refl 0, by norm_num⟩,
   c9_floor_frames_and_warning Fmt.YV12 Fmt.YV12 16 16 (fun _ => 0) 500
     (by decide) (by decide) (fun n => ⟨le_refl 0, by norm_num⟩)
     (fun k _ =>
       ⟨fun m => ⟨le_refl 0, show (0 : Int) ≤ 255 by norm_num⟩,
        fun m => ⟨le_refl 0, show (0 : Int) ≤ 255 by norm_num⟩⟩)⟩

/-- C9 counterexample: converting the valid 65-byte file `fileNeg` from
UYVY to YV12 at width 2, height 16 (input frame size 64, so the size is not
a multiple and the frame count used is 1) aborts instead of processing that
one frame to completion: the downsampled Cb plane holds the unclamped
sample -29 (see `c2_stored_value_not_clamped`), so the `array('B')` packing
of the first frame raises and `convert` returns `none`. -/
theorem c9_abort_counterexample :
    ¬ (get_frame_size Fmt.UYVY 2 16 ∣ 65) ∧
    num_frames 65 (get_frame_size Fmt.UYVY 2 16) = 1 ∧
    (convert Fmt.UYVY Fmt.YV12 2 16 fileNeg 65).isNone = true := by
  decide

/-- C10 (confirmed): with `w = width >> 1`, for every column `i < w`, every
even input row `j < height` of the downsampler has all eleven clamped tap
rows below `height` — in particular `jp6 = min(j+5, height-1)` stays in
bounds, which is exactly why the source replaced the reference's `j+6` —
so every read index `i + w*jX` is below the source length `w*height`, and
the write index is below the destination length `w*(height/2)`; and for
every input row `j < height >> 1` of the upsampler every read index is
below the source length `w*(height>>1)` and both write indices are below
the destination length `w*height`. -/
theorem c10_index_bounds (width height i j : Nat)
    (hh : height % 2 = 0) (hi : i < width >>> 1) :
    (j % 2 = 0 → j < height →
      i + (width >>> 1) * j < (width >>> 1) * height ∧
      i + (width >>> 1) * jm1 j < (width >>> 1) * height ∧
      i + (width >>> 1) * jm2 j < (width >>> 1) * height ∧
      i + (width >>> 1) * jm3 j < (width >>> 1) * height ∧
      i + (width >>> 1) * jm4 j < (width >>> 1) * height ∧
      i + (width >>> 1) * jm5 j < (width >>> 1) * height ∧
      i + (width >>> 1) * jp1 j height < (width >>> 1) * height ∧
      i + (width >>> 1) * jp2 j height < (width >>> 1) * height ∧
      i + (width >>> 1) * jp3 j height < (width >>> 1) * height ∧
      i + (width >>> 1) * jp4 j height < (width >>> 1) * height ∧
      i + (width >>> 1) * jp5 j height < (width >>> 1) * height ∧
      i + (width >>> 1) * jp6 j height < (width >>> 1) * height ∧
      i + (width >>> 1) * (j >>> 1) < (width >>> 1) * (height / 2)) ∧
    (j < height >>> 1 →
      i + (width >>> 1) * j < (width >>> 1) * (height >>> 1) ∧
      i + (width >>> 1) * jm1 j < (width >>> 1) * (height >>> 1) ∧
      i + (width >>> 1) * jm2 j < (width >>> 1) * (height >>> 1) ∧
      i + (width >>> 1) * jm3 j < (width >>> 1) * (height >>> 1) ∧
      i + (width >>> 1) * jp1 j (height >>> 1) < (width >>> 1) * (height >>> 1) ∧
      i + (width >>> 1) * jp2 j (height >>> 1) < (width >>> 1) * (height >>> 1) ∧
      i + (width >>> 1) * jp3 j (height >>> 1) < (width >>> 1) * (height >>> 1) ∧
      i + (width >>> 1) * (j <<< 1) < (width >>> 1) * height ∧
      i + (width >>> 1) * ((j <<< 1) + 1) < (width >>> 1) * height) := by
  constructor
  · intro hj2 hjh
    refine ⟨idx_lt hi hjh, idx_lt hi (jm1_lt hjh), idx_lt hi (jm2_lt hjh),
      idx_lt hi (jm3_lt hjh), idx_lt hi (jm4_lt hjh), idx_lt hi (jm5_lt hjh),
      idx_lt hi (jp1_lt hjh), idx_lt hi (jp2_lt hjh), idx_lt hi (jp3_lt hjh),
      idx_lt hi (jp4_lt hjh), idx_lt hi (jp5_lt hjh), idx_lt hi (jp6_lt hjh),
      idx_lt hi ?_⟩
    rw [shiftRight_one_eq]
    omega
  · intro hjh
    refine ⟨idx_lt hi hjh, idx_lt hi (jm1_lt hjh), idx_lt hi (jm2_lt hjh),
      idx_lt hi (jm3_lt hjh), idx_lt hi (jp1_lt hjh), idx_lt hi (jp2_lt hjh),
      idx_lt hi (jp3_lt hjh), idx_lt hi ?_, idx_lt hi ?_⟩
    · rw [shiftLeft_one_eq]
      rw [shiftRight_one_eq] at hjh
      omega
    · rw [shiftLeft_one_eq]
      rw [shiftRight_one_eq] at hjh
      omega

/-- Witness for `c10_index_bounds` at width 16, height 16, `i = 0`,
`j = 0`. -/
theorem c10_index_bounds_witness :
    16 % 2 = 0 ∧ (0 : Nat) < 16 >>> 1 ∧ (0 : Nat) % 2 = 0 ∧ (0 : Nat) < 16 ∧
    0 + (16 >>> 1) * jp6 0 16 < (16 >>> 1) * 16 :=
  ⟨rfl, by decide, rfl, by decide,
   ((c10_index_bounds 16 16 0 0 rfl (by decide)).1 rfl
     (by decide)).2.2.2.2.2.2.2.2.2.2.2.1⟩
